import Mathlib

set_option maxHeartbeats 1000000

/-!
Verification development for the voxmem batch-transcription tool.

The definitions below are a shallow embedding of the Python sources:
* src/voxmem/csv_store.py (the CSV job ledger),
* src/voxmem/util/path.py (filename normalization),
* src/voxmem/storage.py (transcript bundle storage),
* src/voxmem/transcription.py (the AssemblyAI client: retry, backoff,
  rate limiting and the polling loop).

Python dictionaries are embedded as insertion-ordered association lists
with unique keys, matching dict semantics for get / assignment /
setdefault.  Machine floats used for delays and timestamps are embedded
as rationals: every arithmetic operation the code performs on them
(max, min, subtraction, powers of two) is exact.  Strings hold only the
ASCII range in all concrete inputs used below, where Python and Lean
string semantics coincide.
-/

namespace Voxmem

/-! ## Python dict model (insertion-ordered association lists) -/

abbrev Dict := List (String × String)

/-- Embedding of Python d.get(k, "") on a dict. -/
def dget (d : Dict) (k : String) : String :=
  match d.find? (fun p => p.1 = k) with
  | some p => p.2
  | none => ""

/-- Embedding of Python key-membership test k in d. -/
def dmem (d : Dict) (k : String) : Bool :=
  d.any (fun p => p.1 = k)

/-- Embedding of Python assignment d[k] = v: update in place if the key
exists (keeping its position), otherwise append at the end. -/
def dset (d : Dict) (k : String) (v : String) : Dict :=
  match d with
  | [] => [(k, v)]
  | p :: rest => if p.1 = k then (k, v) :: rest else p :: dset rest k v

/-- Embedding of Python d.setdefault(k, v): append (k, v) only when the
key is absent. -/
def dsetdefault (d : Dict) (k : String) (v : String) : Dict :=
  if dmem d k then d else d ++ [(k, v)]

/-- Key list of a dict, in insertion order. -/
def dkeys (d : Dict) : List String := d.map (fun p => p.1)

/-! ## Python str.strip helpers -/

def stripLeftChars (p : Char → Bool) : List Char → List Char
  | [] => []
  | c :: cs => if p c then stripLeftChars p cs else c :: cs

/-- Strip characters satisfying p from both ends of a string, the
semantics of Python str.strip. -/
def stripBoth (p : Char → Bool) (s : String) : String :=
  ⟨((stripLeftChars p ((stripLeftChars p s.toList).reverse)).reverse)⟩

/-- Python str.isspace characters in the ASCII range (str.strip with no
argument).  Non-ASCII whitespace is outside the domain modelled here. -/
def isPyWhitespace (c : Char) : Bool :=
  c = ' ' || c = '\t' || c = '\n' || c = '\x0d' || c = '\x0b' || c = '\x0c'

/-- Embedding of Python s.strip() (no argument: whitespace). -/
def pyStrip (s : String) : String := stripBoth isPyWhitespace s

/-- Embedding of Python s.lower() on the ASCII domain. -/
def pyLower (s : String) : String := ⟨s.toList.map Char.toLower⟩

deriving instance DecidableEq for Except

/-! ## csv_store.py: CsvRow -/

def REQUIRED_COLUMNS : List String := ["filename", "url"]

def DEFAULT_COLUMNS : List String := ["transcription_id", "status", "error"]

structure CsvRow where
  index : Nat
  data : Dict
deriving DecidableEq, Repr

/-- Embedding of the CsvRow.filename property. -/
def CsvRow.filename (r : CsvRow) : String :=
  pyStrip (dget r.data "filename")

/-- Embedding of the CsvRow.transcription_id property: the stripped field,
as None when empty (Python "value or None"). -/
def CsvRow.transcription_id (r : CsvRow) : Option String :=
  let value := pyStrip (dget r.data "transcription_id")
  if value = "" then none else some value

/-- Embedding of the CsvRow.status property. -/
def CsvRow.status (r : CsvRow) : Option String :=
  let value := pyStrip (dget r.data "status")
  if value = "" then none else some value

/-- Embedding of CsvRow.is_completed: bool(transcription_id and
(status == "completed")). -/
def CsvRow.is_completed (r : CsvRow) : Bool :=
  r.transcription_id.isSome && (r.status == some "completed")

/-! ## csv_store.py: CsvStore in-memory state and mutations -/

structure CsvStore where
  fieldnames : List String
  rows : List Dict
deriving DecidableEq, Repr

/-- Embedding of CsvStore.pending: the list comprehension keeping rows
that are not completed, in order. -/
def CsvStore.pending (rows : List CsvRow) : List CsvRow :=
  rows.filter (fun r => ! r.is_completed)

/-- Embedding of the in-memory effect of CsvStore.mark_completed.  An
out-of-range index raises in Python before mutating anything; here the
state is simply returned unchanged in that case. -/
def CsvStore.mark_completed (st : CsvStore) (index : Nat) (tid : String) : CsvStore :=
  let entry := st.rows.getD index []
  let entry := dset entry "transcription_id" tid
  let entry := dset entry "status" "completed"
  let entry := dset entry "error" ""
  { st with rows := st.rows.set index entry }

/-- Embedding of the in-memory effect of CsvStore.mark_failed: setdefault
transcription_id, status := "error", error := message[:500]. -/
def CsvStore.mark_failed (st : CsvStore) (index : Nat) (message : String) : CsvStore :=
  let entry := st.rows.getD index []
  let entry := dsetdefault entry "transcription_id" ""
  let entry := dset entry "status" "error"
  let entry := dset entry "error" (message.take 500)
  { st with rows := st.rows.set index entry }

/-! ## util/path.py: normalize_to_dirname -/

/-- Character-level split on the slash separator. -/
def splitOnSlashAux : List Char → List Char → List (List Char)
  | [], acc => [acc.reverse]
  | c :: cs, acc =>
    if c = '/' then acc.reverse :: splitOnSlashAux cs []
    else splitOnSlashAux cs (c :: acc)

/-- Embedding of Python PurePosixPath(s).name: the final path component,
with empty and single-dot components dropped. -/
def pathName (s : String) : String :=
  ((((splitOnSlashAux s.toList []).map List.asString).filter
    (fun part => part ≠ "" && part ≠ ".")).getLast?).getD ""

/-- Embedding of Python PurePosixPath(name).stem for a component without
slashes: the part before the last dot when that dot is neither the first
nor the last character, otherwise the whole name. -/
def pyStem (name : String) : String :=
  let cs := name.toList
  match ((List.range cs.length).filter (fun i => cs.getD i ' ' = '.')).getLast? with
  | some i => if 0 < i ∧ i + 1 < cs.length then ⟨cs.take i⟩ else name
  | none => name

/-- Model of unicodedata.normalize("NFKD", s).encode("ascii", "ignore"):
the identity on ASCII characters, dropping the rest.  The full NFKD
decomposition table is external to the repository; every concrete input
used in the theorems below is ASCII, where this model is exact. -/
def asciiFold (s : String) : String :=
  ⟨s.toList.filter (fun c => c.toNat < 128)⟩

/-- Embedding of s.replace(" ", "_"). -/
def replaceSpaces (s : String) : String :=
  ⟨s.toList.map (fun c => if c = ' ' then '_' else c)⟩

/-- Characters accepted by the pattern [A-Za-z0-9._-]. -/
def isSafeChar (c : Char) : Bool :=
  c.isAlphanum || c = '.' || c = '_' || c = '-'

/-- Embedding of re.sub applied to the pattern [^A-Za-z0-9._-]+ with
replacement "_": each maximal run of unsafe characters becomes one
underscore.  The flag records whether the previous character was part of
an unsafe run. -/
def subUnsafeAux : Bool → List Char → List Char
  | _, [] => []
  | inRun, c :: cs =>
    if isSafeChar c then c :: subUnsafeAux false cs
    else if inRun then subUnsafeAux true cs
    else '_' :: subUnsafeAux true cs

/-- Separator characters stripped by candidate.strip("._-"). -/
def isSepChar (c : Char) : Bool :=
  c = '.' || c = '_' || c = '-'

/-- Embedding of normalize_to_dirname from util/path.py, returning the
ValueError message in the error case.  The max_length parameter keeps its
Python default of 100; non-positive values disable the cap. -/
def normalize_to_dirname (name : String) (maxLength : Nat := 100) : Except String String :=
  if name = "" then .error "Filename must be provided for normalization"
  else
    let filename := pyStrip (pathName name)
    if filename = "" then .error "Filename must contain at least one visible character"
    else
      let stem := pyStrip (pyStem filename)
      let candidate := if stem = "" then filename else stem
      let candidate := asciiFold candidate
      let candidate := replaceSpaces candidate
      let candidate : String := ⟨subUnsafeAux false candidate.toList⟩
      let candidate := stripBoth isSepChar candidate
      if candidate = "" then .error "Filename cannot be normalized; specify a safer name"
      else if 0 < maxLength ∧ maxLength < candidate.length then
        .ok ⟨candidate.toList.take maxLength⟩
      else .ok candidate

/-! ## csv_store.py: ensure_unique_filenames -/

/-- Errors raised by ensure_unique_filenames, carrying the content of the
ValueError messages: either the normalization failure of one row
(message "Row i: msg") or the duplicate report (message "Duplicate
filenames detected: " followed by the sorted names). -/
inductive LedgerError where
  | normError (index : Nat) (msg : String)
  | duplicates (names : List String)
deriving DecidableEq, Repr

/-- Append an element to a list only when absent: the effect of adding to
a Python set, keeping first-encounter order. -/
def setAdd (l : List String) (x : String) : List String :=
  if l.contains x then l else l ++ [x]

/-- Loop body of ensure_unique_filenames: walk the rows accumulating the
seen set of lowercased normalized names and the duplicate set. -/
def ensureUniqueAux : List CsvRow → List String → List String →
    Except LedgerError (List String)
  | [], _, dups => .ok dups
  | row :: rest, seen, dups =>
    match normalize_to_dirname row.filename with
    | .error msg => .error (.normError row.index msg)
    | .ok norm =>
      let key := pyLower norm
      if seen.contains key then
        ensureUniqueAux rest seen (setAdd dups (if row.filename = "" then norm else row.filename))
      else
        ensureUniqueAux rest (setAdd seen key) dups

/-- Embedding of CsvStore.ensure_unique_filenames.  The reported
duplicate names are sorted, as Python sorted() does on the set. -/
def ensure_unique_filenames (rows : List CsvRow) : Except LedgerError Unit :=
  match ensureUniqueAux rows [] [] with
  | .error e => .error e
  | .ok dups =>
    if dups = [] then .ok ()
    else .error (.duplicates (dups.mergeSort (fun a b => decide (a ≤ b))))

/-! ## csv_store.py: load and flush

The CSV text layer (the Python csv module) is external to the repository;
a parsed CSV file is embedded as its list of records, each a list of
cell strings.  Ragged records (where DictReader would fill missing cells
with None or collect extras under a rest key) are outside the
well-formed tables considered below. -/

abbrev CsvTable := List (List String)

/-- Embedding of CsvStore._ensure_defaults: setdefault each of the
DEFAULT_COLUMNS to the empty string. -/
def ensureDefaults (row : Dict) : Dict :=
  DEFAULT_COLUMNS.foldl (fun r col => dsetdefault r col "") row

/-- Embedding of one DictReader row: zip the header with the record. -/
def dictZip (header : List String) (record : List String) : Dict :=
  header.zip record

/-- Embedding of the loop appending each column absent from the field
names (used for the DEFAULT_COLUMNS in _load). -/
def addMissingCols (fs cols : List String) : List String :=
  cols.foldl (fun acc col => if acc.contains col then acc else acc ++ [col]) fs

/-- Embedding of CsvStore._load on a parsed table: reject a missing or
empty header, reject missing required columns, append the missing default
columns to the field names, and read the records (DictReader skips blank
records). -/
def loadTable (t : CsvTable) : Except String CsvStore :=
  match t with
  | [] => .error "CSV file is missing headers"
  | header :: records =>
    if header.isEmpty then .error "CSV file is missing headers"
    else if (REQUIRED_COLUMNS.filter (fun col => ! header.contains col)).isEmpty then
      .ok { fieldnames := addMissingCols header DEFAULT_COLUMNS,
            rows := (records.filter (fun rec => ! rec.isEmpty)).map
              (fun rec => ensureDefaults (dictZip header rec)) }
    else
      .error ("CSV missing required columns: " ++ String.intercalate ", "
        (REQUIRED_COLUMNS.filter (fun col => ! header.contains col)))

/-- Well-formed parsed CSV file: a duplicate-free header and rectangular
records (the csv library cases with restval padding or a rest key are
outside this embedding). -/
def wellFormedTable : CsvTable → Bool
  | [] => false
  | header :: records =>
    decide header.Nodup && records.all (fun rec => rec.length == header.length)

/-- One terminal ledger mutation. -/
inductive LedgerMut where
  | completed (index : Nat) (tid : String)
  | failed (index : Nat) (message : String)
deriving DecidableEq, Repr

def applyMut (st : CsvStore) : LedgerMut → CsvStore
  | .completed i tid => st.mark_completed i tid
  | .failed i msg => st.mark_failed i msg

def applyMuts (st : CsvStore) (muts : List LedgerMut) : CsvStore :=
  muts.foldl applyMut st

/-- Invariant maintained by the store between load and flush. -/
def WFStore (st : CsvStore) : Prop :=
  st.fieldnames ≠ [] ∧
  (∀ c ∈ REQUIRED_COLUMNS, st.fieldnames.contains c = true) ∧
  (∀ c ∈ DEFAULT_COLUMNS, st.fieldnames.contains c = true) ∧
  st.fieldnames.Nodup ∧
  ∀ row ∈ st.rows, dkeys row = st.fieldnames

/-- Serialization performed inside CsvStore._flush_locked: the header
followed by each row projected onto the field names with row.get(key, "").
This is what DictWriter receives. -/
def serializeRows (st : CsvStore) : CsvTable :=
  st.fieldnames :: st.rows.map (fun row => st.fieldnames.map (fun key => dget row key))

/-! ## csv_store.py: the atomic rewrite of _flush_locked

The filesystem is embedded as the content of the ledger file plus the
optional temporary file; _flush_locked is embedded as the trace of
filesystem operations the code performs, interpreted by a small-step
semantics. -/

structure LedgerPath where
  dir : String
  name : String
deriving DecidableEq, Repr

structure FsState where
  ledger : CsvTable
  temp : Option CsvTable
deriving DecidableEq, Repr

inductive FsOp where
  | createTemp (dir : String)
  | writeTemp (content : CsvTable)
  | renameTempOver (dir : String) (name : String)
  | unlinkTemp
deriving DecidableEq, Repr

/-- Outcome of the serialization loop inside the with-block: either every
row is written, or an exception interrupts the write after k lines. -/
inductive WriteOutcome where
  | success
  | failAfter (k : Nat)
deriving DecidableEq, Repr

/-- Semantics of one filesystem operation. -/
def applyOp (fs : FsState) : FsOp → FsState
  | .createTemp _ => { fs with temp := some [] }
  | .writeTemp content => { fs with temp := some content }
  | .renameTempOver _ _ =>
    match fs.temp with
    | some content => { ledger := content, temp := none }
    | none => fs
  | .unlinkTemp => { fs with temp := none }

/-- Trace of filesystem operations performed by CsvStore._flush_locked:
mkstemp in the directory of the ledger path, the DictWriter writes, then
os.replace on success; the finally block unlinks the temporary file
exactly when it still exists, which is the failure case (os.replace
already removed it on success). -/
def flushOps (st : CsvStore) (path : LedgerPath) : WriteOutcome → List FsOp
  | .success =>
    [.createTemp path.dir, .writeTemp (serializeRows st),
     .renameTempOver path.dir path.name]
  | .failAfter k =>
    [.createTemp path.dir, .writeTemp ((serializeRows st).take k), .unlinkTemp]

/-- Embedding of CsvStore._flush_locked: run the operation trace and
report whether the exception propagated. -/
def flush_locked (st : CsvStore) (path : LedgerPath) (fs : FsState)
    (outcome : WriteOutcome) : FsState × Bool :=
  ((flushOps st path outcome).foldl applyOp fs, outcome != .success)

/-! ## transcription.py: retry, backoff and rate limiting

Machine floats (delays, timestamps) are embedded as rationals; every
operation performed on them by the code (max, min, subtraction, powers
of two) is exact in that embedding.  An HTTP header is embedded by the
three cases the code distinguishes: missing or empty (falsy), present
but rejected by float()/int(), or present with its parsed value. -/

inductive HeaderVal where
  | absent
  | unparseable
  | val (q : ℚ)
deriving DecidableEq, Repr

inductive IntHeaderVal where
  | absent
  | unparseable
  | val (n : ℤ)
deriving DecidableEq, Repr

structure Response where
  statusCode : Nat
  retryAfter : HeaderVal
  rateLimitReset : HeaderVal
  rateLimitLimit : IntHeaderVal
  rateLimitRemaining : IntHeaderVal
  requestPath : Option String
deriving DecidableEq, Repr

/-- Embedding of AssemblyAIClient._backoff_delay: min(2 ** attempt, 30). -/
def backoff_delay (attempt : Nat) : ℚ :=
  min ((2 : ℚ) ^ attempt) 30

/-- Embedding of getattr(response, "status_code", None). -/
def statusOf (response : Option Response) : Option Nat :=
  response.map (fun r => r.statusCode)

/-- Embedding of AssemblyAIClient._rate_limit_delay.  A parseable
Retry-After header wins with a floor of one second; otherwise a parseable
X-RateLimit-Reset timestamp gives reset minus the current time with the
same floor; otherwise exponential backoff.  An unparseable header falls
through exactly like a missing one (the except ValueError: pass). -/
def rate_limit_delay (response : Option Response) (now : ℚ) (attempt : Nat) : ℚ :=
  match response with
  | none => backoff_delay attempt
  | some r =>
    match r.retryAfter with
    | .val q => max q 1
    | _ =>
      match r.rateLimitReset with
      | .val t => max (t - now) 1
      | _ => backoff_delay attempt

/-- Embedding of AssemblyAIClient._safe_int. -/
def safeInt : IntHeaderVal → Option ℤ
  | .val n => some n
  | _ => none

structure RateLimitEvent where
  endpoint : String
  delay : ℚ
  limit : Option ℤ
  remaining : Option ℤ
  reset_at : Option ℚ
deriving DecidableEq, Repr

/-- Embedding of the endpoint computation: response.request.url.path when
the request is recorded, otherwise "unknown". -/
def endpointOf (response : Option Response) : String :=
  match response with
  | some r => r.requestPath.getD "unknown"
  | none => "unknown"

/-- Embedding of AssemblyAIClient._rate_limit_event.  The reset_at field
holds the raw timestamp handed to datetime.fromtimestamp. -/
def rate_limit_event (endpoint : String) (delay : ℚ) (response : Option Response) :
    RateLimitEvent :=
  match response with
  | none =>
    { endpoint := endpoint, delay := delay, limit := none, remaining := none,
      reset_at := none }
  | some r =>
    { endpoint := endpoint, delay := delay,
      limit := safeInt r.rateLimitLimit,
      remaining := safeInt r.rateLimitRemaining,
      reset_at := match r.rateLimitReset with | .val t => some t | _ => none }

/-- Observable side effects of the retry loop. -/
inductive ClientAction where
  | sleep (seconds : ℚ)
  | emitRateLimit (ev : RateLimitEvent)
deriving DecidableEq, Repr

/-- Outcome of one underlying network call inside _retry: success, an SDK
error with the last recorded HTTP response, or any other exception. -/
inductive CallOutcome where
  | ok (result : String)
  | sdkError (msg : String) (response : Option Response)
  | otherError (msg : String)

def transientStatuses : List Nat := [429, 500, 502, 503, 504]

/-- Actions performed for one transient failure inside _retry: compute the
delay, emit a rate-limit event only for status 429 when an observer is
configured and a response was recorded, then sleep the delay. -/
def transientStepActions (response : Option Response) (now : ℚ) (attempt : Nat)
    (observerConfigured : Bool) : List ClientAction :=
  let delay := rate_limit_delay response now attempt
  (if statusOf response == some 429 && observerConfigured && response.isSome then
    [ClientAction.emitRateLimit (rate_limit_event (endpointOf response) delay response)]
  else []) ++ [ClientAction.sleep delay]

inductive RetryResult where
  | ok (result : String)
  | err (msg : String)
deriving DecidableEq, Repr

/-- Embedding of the loop of AssemblyAIClient._retry.  The fuel is the
number of remaining loop iterations (max_retries minus the attempts
already made); outcomes and clock readings are indexed by the 1-based
attempt number.  Returns the result, the trace of sleeps and emitted
events, and the number of calls made. -/
def retryAux (outcomes : Nat → CallOutcome) (nowAt : Nat → ℚ) (obs : Bool) :
    Nat → Nat → RetryResult × List ClientAction × Nat
  | _, 0 => (.err "Maximum retries exceeded", [], 0)
  | attempt, fuel + 1 =>
    match outcomes attempt with
    | .ok v => (.ok v, [], 1)
    | .sdkError msg response =>
      if (statusOf response).any (fun s => transientStatuses.contains s) then
        let acts := transientStepActions response (nowAt attempt) attempt obs
        let rec' := retryAux outcomes nowAt obs (attempt + 1) fuel
        (rec'.1, acts ++ rec'.2.1, rec'.2.2 + 1)
      else (.err msg, [], 1)
    | .otherError msg =>
      if fuel = 0 then (.err msg, [], 1)
      else
        let rec' := retryAux outcomes nowAt obs (attempt + 1) fuel
        (rec'.1, ClientAction.sleep (backoff_delay attempt) :: rec'.2.1, rec'.2.2 + 1)

/-- Embedding of AssemblyAIClient._retry for one wrapped call. -/
def retryRun (outcomes : Nat → CallOutcome) (nowAt : Nat → ℚ) (obs : Bool)
    (maxRetries : Nat) : RetryResult × List ClientAction × Nat :=
  retryAux outcomes nowAt obs 1 maxRetries

/-! ## transcription.py: the polling loop of transcribe -/

inductive PollOutcome where
  | timedOut (transcriptId : String) (lastStatus : Option String)
  | bundle (transcriptId : String) (completedAt : Nat)
  | remoteError (at_ : Nat)
  | fuelOut
deriving DecidableEq, Repr

/-- Embedding of the timeout guard: self.timeout is not None and
(monotonic - start) > self.timeout. -/
def timeoutExceeded (timeout : Option ℚ) (elapsed : ℚ) : Bool :=
  match timeout with
  | some t => elapsed > t
  | none => false

/-- Embedding of the while-loop of AssemblyAIClient.transcribe after
submission.  elapsed is the monotonic clock reading minus start at the
top of the iteration; each iteration adds the fetch duration
(fetchTime i, nonnegative) plus the fixed poll_interval sleep.  statusAt
i is the status string of the i-th fetch.  The fuel bounds the number of
iterations unfolded; the loop itself has no such bound. -/
def pollLoop (timeout : Option ℚ) (pollInterval : ℚ) (fetchTime : Nat → ℚ)
    (statusAt : Nat → String) (transcriptId : String) :
    ℚ → Option String → Nat → Nat → PollOutcome
  | _, _, _, 0 => .fuelOut
  | elapsed, lastStatus, i, fuel + 1 =>
    if timeoutExceeded timeout elapsed then .timedOut transcriptId lastStatus
    else
      if statusAt i = "completed" then .bundle transcriptId i
      else if statusAt i = "error" then .remoteError i
      else pollLoop timeout pollInterval fetchTime statusAt transcriptId
        (elapsed + fetchTime i + pollInterval) (some (statusAt i)) (i + 1) fuel

/-! ## storage.py: save_bundle -/

structure StorageResult where
  folder : String
  json_path : String
  vtt_path : Option String
  srt_path : Option String
deriving DecidableEq, Repr

def joinPath (a b : String) : String := a ++ "/" ++ b

/-- Embedding of TranscriptStorage._write_text: skip a missing caption,
otherwise write the text and return the target path. -/
def writeText (target : String) (content : Option String) :
    Option String × List (String × String) :=
  match content with
  | none => (none, [])
  | some text => (some target, [(target, text)])

/-- Embedding of TranscriptStorage.save_bundle on a storage rooted at
root.  The payload stands for the serialized JSON document.  Returns the
StorageResult together with the list of (path, content) writes performed,
or the ValidationError message when the filename does not normalize. -/
def save_bundle (root filename transcription_id : String) (payload : String)
    (vtt srt : Option String) : Except String (StorageResult × List (String × String)) :=
  match normalize_to_dirname filename with
  | .error msg => .error msg
  | .ok safe =>
    let folder := joinPath root safe
    let json_path := joinPath folder (transcription_id ++ ".json")
    let vttRes := writeText (joinPath folder (transcription_id ++ ".vtt")) vtt
    let srtRes := writeText (joinPath folder (transcription_id ++ ".srt")) srt
    .ok ({ folder := folder, json_path := json_path,
           vtt_path := vttRes.1, srt_path := srtRes.1 },
         [(json_path, payload)] ++ vttRes.2 ++ srtRes.2)

/-! ## Derived helpers used in statements and witnesses -/

/-- Classification of one call outcome as transient in the sense of
_retry: an SDK error whose recorded status is in {429, 500, 502, 503,
504}. -/
def isTransientOutcome : CallOutcome → Bool
  | .sdkError _ response => (statusOf response).any fun s => transientStatuses.contains s
  | _ => false

def PollOutcome.isBundle : PollOutcome → Bool
  | .bundle _ _ => true
  | _ => false

/-- Whether a row's filename normalizes without error. -/
def rowNormSucceeds (r : CsvRow) : Bool :=
  (normalize_to_dirname r.filename).isOk

/-- The case-insensitive collision key of a row: the lowercased
normalized folder name (empty when normalization fails). -/
def rowNormKey (r : CsvRow) : String :=
  pyLower ((normalize_to_dirname r.filename).toOption.getD "")

/-- The name recorded for a duplicate row: its filename, or the
normalized name when the filename is empty. -/
def rowDupName (r : CsvRow) : String :=
  if r.filename = "" then (normalize_to_dirname r.filename).toOption.getD ""
  else r.filename

def dummyRow : CsvRow := ⟨0, []⟩

/-- Concrete two-row store used by witnesses. -/
def wStore : CsvStore :=
  ⟨["filename", "url", "transcription_id", "status", "error"],
   [[("filename", "a.mp3"), ("url", "u1"), ("transcription_id", "tx"),
     ("status", ""), ("error", "")],
    [("filename", "b.mp3"), ("url", "u2"), ("transcription_id", ""),
     ("status", ""), ("error", "")]]⟩

/-- Concrete 429 response used by witnesses: Retry-After is 2 seconds. -/
def respRetryAfter2 : Response :=
  ⟨429, .val 2, .absent, .absent, .absent, some "/v2/transcript"⟩

/-! ## Dictionary lemmas -/

theorem dget_cons (p : String × String) (d : Dict) (k : String) :
    dget (p :: d) k = if p.1 = k then p.2 else dget d k := by
  simp only [dget]
  rcases eq_or_ne p.1 k with h | h
  · rw [List.find?_cons_of_pos] <;> simp [h]
  · rw [List.find?_cons_of_neg] <;> simp [h]

theorem dmem_cons (p : String × String) (d : Dict) (k : String) :
    dmem (p :: d) k = ((p.1 = k : Bool) || dmem d k) := by
  simp [dmem]

theorem dget_of_not_dmem (d : Dict) (k : String) (h : dmem d k = false) :
    dget d k = "" := by
  induction d with
  | nil => rfl
  | cons p rest ih =>
    rw [dmem_cons, Bool.or_eq_false_iff] at h
    rw [dget_cons, if_neg (by simpa using h.1)]
    exact ih h.2

theorem dget_append (d₁ d₂ : Dict) (k : String) :
    dget (d₁ ++ d₂) k = if dmem d₁ k then dget d₁ k else dget d₂ k := by
  induction d₁ with
  | nil => simp [dmem]
  | cons p rest ih =>
    rcases eq_or_ne p.1 k with h | h
    · simp [dget_cons, dmem_cons, h]
    · simp only [List.cons_append, dget_cons, dmem_cons, if_neg h, ih]
      simp [h]

theorem dget_dset_self (d : Dict) (k v : String) : dget (dset d k v) k = v := by
  induction d with
  | nil => simp [dset, dget_cons]
  | cons p rest ih =>
    rcases eq_or_ne p.1 k with h | h
    · simp [dset, h, dget_cons]
    · simp [dset, h, dget_cons, ih]

theorem dget_dset_ne (d : Dict) (k k' v : String) (h : k' ≠ k) :
    dget (dset d k v) k' = dget d k' := by
  have hk : ¬(k = k') := fun hh => h hh.symm
  induction d with
  | nil =>
    show dget [(k, v)] k' = dget [] k'
    rw [dget_cons, if_neg hk]
  | cons p rest ih =>
    rcases eq_or_ne p.1 k with hp | hp
    · rw [dset, if_pos hp, dget_cons, dget_cons, if_neg hk,
        if_neg (show ¬(p.1 = k') from fun hh => hk (hp.symm.trans hh))]
    · rw [dset, if_neg hp, dget_cons, dget_cons, ih]

theorem dget_dsetdefault_self (d : Dict) (k : String) :
    dget (dsetdefault d k "") k = dget d k := by
  by_cases h : dmem d k
  · simp [dsetdefault, h]
  · rw [dsetdefault, if_neg (by simp [h]), dget_append,
      if_neg (by simp [h]), dget_of_not_dmem d k (by simp [h]), dget_cons]
    simp

theorem dget_dsetdefault_ne (d : Dict) (k k' v : String) (h : k' ≠ k) :
    dget (dsetdefault d k v) k' = dget d k' := by
  by_cases hm : dmem d k
  · simp [dsetdefault, hm]
  · by_cases hm' : dmem d k'
    · rw [dsetdefault, if_neg (by simp [hm]), dget_append, if_pos hm']
    · rw [dsetdefault, if_neg (by simp [hm]), dget_append, if_neg (by simp [hm']),
        dget_of_not_dmem d k' (by simp [hm']), dget_cons,
        if_neg (show ¬(k = k') from fun hh => h hh.symm)]
      rfl

/-! ## C3: mark_failed -/

/-- C3: for every valid row index and every message, mark_failed sets the
status field of that row to "error" and its error field to the first 500
characters of the message, leaves the transcription_id field of the row
unchanged, and leaves every other row entirely unchanged. -/
theorem mark_failed_sets_error_and_frames (st : CsvStore) (i : Nat) (msg : String)
    (h : i < st.rows.length) :
    dget ((st.mark_failed i msg).rows.getD i []) "status" = "error" ∧
    dget ((st.mark_failed i msg).rows.getD i []) "error" = msg.take 500 ∧
    dget ((st.mark_failed i msg).rows.getD i []) "transcription_id" =
      dget (st.rows.getD i []) "transcription_id" ∧
    (st.mark_failed i msg).fieldnames = st.fieldnames ∧
    (st.mark_failed i msg).rows.length = st.rows.length ∧
    ∀ j, j ≠ i → (st.mark_failed i msg).rows.getD j [] = st.rows.getD j [] := by
  have hset : ∀ entry : Dict, (st.rows.set i entry).getD i [] = entry := by
    intro entry
    simp [List.getD, List.getElem?_set_self', h]
  refine ⟨?_, ?_, ?_, rfl, by simp [CsvStore.mark_failed], ?_⟩
  · rw [CsvStore.mark_failed]
    simp only [hset]
    rw [dget_dset_ne _ _ _ _ (by decide), dget_dset_self]
  · rw [CsvStore.mark_failed]
    simp only [hset]
    rw [dget_dset_self]
  · rw [CsvStore.mark_failed]
    simp only [hset]
    rw [dget_dset_ne _ _ _ _ (by decide), dget_dset_ne _ _ _ _ (by decide),
      dget_dsetdefault_self]
  · intro j hj
    rw [CsvStore.mark_failed]
    simp [List.getD, List.getElem?_set_ne (fun hh => hj hh.symm)]

/-- Witness for C3 at a concrete two-row store. -/
theorem mark_failed_sets_error_and_frames_witness :
    dget ((wStore.mark_failed 0 "boom").rows.getD 0 []) "status" = "error" ∧
    dget ((wStore.mark_failed 0 "boom").rows.getD 0 []) "error" =
      String.take "boom" 500 ∧
    dget ((wStore.mark_failed 0 "boom").rows.getD 0 []) "transcription_id" =
      dget (wStore.rows.getD 0 []) "transcription_id" ∧
    (wStore.mark_failed 0 "boom").fieldnames = wStore.fieldnames ∧
    (wStore.mark_failed 0 "boom").rows.length = wStore.rows.length ∧
    (wStore.mark_failed 0 "boom").rows.getD 1 [] = wStore.rows.getD 1 [] := by
  have h := mark_failed_sets_error_and_frames wStore 0 "boom" (by decide)
  exact ⟨h.1, h.2.1, h.2.2.1, h.2.2.2.1, h.2.2.2.2.1, h.2.2.2.2.2 1 (by decide)⟩

/-! ## C1: is_completed and pending -/

/-- C1 counterexample: a row whose stored status field is " completed "
(with surrounding whitespace) is reported completed by is_completed even
though its status field does not equal "completed"; the claimed
equivalence with the raw field fails because the status accessor strips
whitespace. -/
theorem is_completed_raw_status_counterexample :
    (CsvRow.mk 0 [("transcription_id", "abc"), ("status", " completed ")]).is_completed
      = true ∧
    dget (CsvRow.mk 0 [("transcription_id", "abc"),
      ("status", " completed ")]).data "status" ≠ "completed" := by
  decide

/-- C1 amended: a row is completed iff its transcription_id field is
non-empty after stripping whitespace and its status field equals
"completed" after stripping whitespace; and pending keeps exactly the
rows that are not completed, in their original relative order. -/
theorem is_completed_iff_and_pending (r : CsvRow) (rows : List CsvRow) :
    (r.is_completed = true ↔
      (pyStrip (dget r.data "transcription_id") ≠ "" ∧
       pyStrip (dget r.data "status") = "completed")) ∧
    (CsvStore.pending rows).Sublist rows ∧
    (∀ s ∈ CsvStore.pending rows, s.is_completed = false) ∧
    (∀ s ∈ rows, s.is_completed = false → s ∈ CsvStore.pending rows) := by
  refine ⟨?_, List.filter_sublist rows, ?_, ?_⟩
  · by_cases ht : pyStrip (dget r.data "transcription_id") = "" <;>
      by_cases hs : pyStrip (dget r.data "status") = "" <;>
      simp [CsvRow.is_completed, CsvRow.transcription_id, CsvRow.status, ht, hs]
  · intro s hs
    have := List.mem_filter.mp hs
    simpa using this.2
  · intro s hs hf
    exact List.mem_filter.mpr ⟨hs, by simp [hf]⟩

/-- Witness for C1 at a concrete completed row and a concrete row list. -/
theorem is_completed_iff_and_pending_witness :
    ((CsvRow.mk 0 [("transcription_id", "abc"), ("status", "completed")]).is_completed
        = true ↔
      (pyStrip (dget (CsvRow.mk 0 [("transcription_id", "abc"),
          ("status", "completed")]).data "transcription_id") ≠ "" ∧
       pyStrip (dget (CsvRow.mk 0 [("transcription_id", "abc"),
          ("status", "completed")]).data "status") = "completed")) ∧
    (CsvStore.pending [CsvRow.mk 0 [("transcription_id", "abc"),
        ("status", "completed")], CsvRow.mk 1 []]).Sublist
      [CsvRow.mk 0 [("transcription_id", "abc"), ("status", "completed")],
       CsvRow.mk 1 []] ∧
    (∀ s ∈ CsvStore.pending [CsvRow.mk 0 [("transcription_id", "abc"),
        ("status", "completed")], CsvRow.mk 1 []], s.is_completed = false) ∧
    (∀ s ∈ [CsvRow.mk 0 [("transcription_id", "abc"), ("status", "completed")],
        CsvRow.mk 1 []], s.is_completed = false →
      s ∈ CsvStore.pending [CsvRow.mk 0 [("transcription_id", "abc"),
        ("status", "completed")], CsvRow.mk 1 []]) :=
  is_completed_iff_and_pending _ _

/-! ## C4: atomicity of the ledger rewrite -/

/-- C4: the rewrite serializes the full row set to a temporary file
created in the directory of the ledger and renames it over the original;
on success the ledger file holds exactly the serialized rows and no
temporary file remains, and on a failure after any number of written
lines the ledger content is unchanged and the temporary file is removed. -/
theorem flush_locked_atomic (st : CsvStore) (path : LedgerPath) (fs : FsState) (k : Nat) :
    flush_locked st path fs .success =
      ({ ledger := serializeRows st, temp := none }, false) ∧
    flush_locked st path fs (.failAfter k) =
      ({ ledger := fs.ledger, temp := none }, true) ∧
    (flushOps st path .success).head? = some (.createTemp path.dir) ∧
    (flushOps st path (.failAfter k)).head? = some (.createTemp path.dir) := by
  refine ⟨?_, ?_, rfl, rfl⟩ <;> simp [flush_locked, flushOps, applyOp]

/-! ## C5: rate-limit delay and event emission -/

/-- C5: for a transient failure the step emits a rate-limit event exactly
when the status is 429 and an observer is configured, placed before the
sleep; the event carries the computed delay; and the delay is the
Retry-After value floored at one second when that header parses, else the
reset timestamp minus the current time floored at one second when that
header parses, else min(2 ^ attempt, 30). -/
theorem rate_limit_429_actions (r : Response) (now : ℚ) (attempt : Nat) (obs : Bool) :
    transientStepActions (some r) now attempt obs =
      (if r.statusCode = 429 ∧ obs = true then
        [ClientAction.emitRateLimit (rate_limit_event (endpointOf (some r))
          (rate_limit_delay (some r) now attempt) (some r))]
       else []) ++ [ClientAction.sleep (rate_limit_delay (some r) now attempt)] ∧
    (rate_limit_event (endpointOf (some r)) (rate_limit_delay (some r) now attempt)
      (some r)).delay = rate_limit_delay (some r) now attempt ∧
    rate_limit_delay (some r) now attempt =
      (match r.retryAfter with
       | .val q => max q 1
       | _ =>
         match r.rateLimitReset with
         | .val t => max (t - now) 1
         | _ => min ((2 : ℚ) ^ attempt) 30) ∧
    (∀ (outcomes : Nat → CallOutcome) (nowAt : Nat → ℚ) (msg : String) (fuel : Nat),
      outcomes attempt = .sdkError msg (some r) →
      nowAt attempt = now →
      r.statusCode ∈ transientStatuses →
      ∃ tail, (retryAux outcomes nowAt obs attempt (fuel + 1)).2.1 =
        transientStepActions (some r) now attempt obs ++ tail) := by
  refine ⟨?_, rfl, rfl, ?_⟩
  · by_cases h429 : r.statusCode = 429 <;> cases obs <;>
      simp [transientStepActions, statusOf, h429]
  · intro outcomes nowAt msg fuel ho hn hs
    have hguard : ((statusOf (some r)).any fun s => transientStatuses.contains s) = true := by
      simp only [statusOf, Option.map_some', Option.any_some]
      exact List.elem_iff.mpr hs
    refine ⟨(retryAux outcomes nowAt obs (attempt + 1) fuel).2.1, ?_⟩
    simp only [retryAux, ho, hguard, if_true, hn]

/-- Witness for C5: a 429 response with Retry-After 2 at attempt 1 with a
configured observer gives one emitted event followed by one sleep of
2 seconds, and the retry loop performs those actions. -/
theorem rate_limit_429_actions_witness :
    transientStepActions (some respRetryAfter2) 0 1 true =
      (if respRetryAfter2.statusCode = 429 ∧ true = true then
        [ClientAction.emitRateLimit (rate_limit_event (endpointOf (some respRetryAfter2))
          (rate_limit_delay (some respRetryAfter2) 0 1) (some respRetryAfter2))]
       else []) ++ [ClientAction.sleep (rate_limit_delay (some respRetryAfter2) 0 1)] ∧
    rate_limit_delay (some respRetryAfter2) 0 1 = 2 ∧
    (rate_limit_event (endpointOf (some respRetryAfter2))
      (rate_limit_delay (some respRetryAfter2) 0 1) (some respRetryAfter2)).delay =
      rate_limit_delay (some respRetryAfter2) 0 1 ∧
    ∃ tail, (retryAux (fun _ => .sdkError "rate limited" (some respRetryAfter2))
        (fun _ => 0) true 1 1).2.1 =
      transientStepActions (some respRetryAfter2) 0 1 true ++ tail := by
  have h := rate_limit_429_actions respRetryAfter2 0 1 true
  exact ⟨h.1, by decide, h.2.1,
    h.2.2.2 (fun _ => .sdkError "rate limited" (some respRetryAfter2))
      (fun _ => 0) "rate limited" 0 rfl rfl (by decide)⟩

/-! ## C6: non-transient errors and retry exhaustion -/

theorem retryAux_exhaust (outcomes : Nat → CallOutcome) (nowAt : Nat → ℚ) (obs : Bool) :
    ∀ fuel attempt,
      (∀ a, attempt ≤ a → a < attempt + fuel → isTransientOutcome (outcomes a) = true) →
      (retryAux outcomes nowAt obs attempt fuel).1 = .err "Maximum retries exceeded" ∧
      (retryAux outcomes nowAt obs attempt fuel).2.2 = fuel := by
  intro fuel
  induction fuel with
  | zero => intro attempt _; exact ⟨rfl, rfl⟩
  | succ f ih =>
    intro attempt h
    have ha := h attempt (le_refl _) (by omega)
    cases ho : outcomes attempt with
    | ok v => rw [ho] at ha; simp [isTransientOutcome] at ha
    | otherError m => rw [ho] at ha; simp [isTransientOutcome] at ha
    | sdkError m resp =>
      rw [ho] at ha
      simp only [isTransientOutcome] at ha
      have hrec := ih (attempt + 1) (fun a h1 h2 => h a (by omega) (by omega))
      simp only [retryAux, ho, ha, if_true]
      exact ⟨hrec.1, by simp [hrec.2]⟩

/-- C6 counterexample: after exhausting max_retries transient failures
the error message is "Maximum retries exceeded" with a capital M, not the
claimed "maximum retries exceeded". -/
theorem retry_exhaustion_message_counterexample :
    (retryRun (fun _ => .sdkError "boom"
        (some ⟨500, .absent, .absent, .absent, .absent, none⟩))
      (fun _ => 0) false 1).1 = .err "Maximum retries exceeded" ∧
    (retryRun (fun _ => .sdkError "boom"
        (some ⟨500, .absent, .absent, .absent, .absent, none⟩))
      (fun _ => 0) false 1).1 ≠ .err "maximum retries exceeded" := by
  decide

/-- C6 amended: a failure whose recorded HTTP status is outside
{429, 500, 502, 503, 504} stops the loop at once with a RemoteError
carrying that failure, after exactly one call and no sleeps; and when
every attempt up to max_retries fails transiently the call ends with a
RemoteError whose message is "Maximum retries exceeded" (capital M),
after exactly max_retries calls. -/
theorem retry_nontransient_and_exhaustion (outcomes : Nat → CallOutcome)
    (nowAt : Nat → ℚ) (obs : Bool) (maxRetries : Nat) (msg : String)
    (response : Option Response)
    (h1 : outcomes 1 = .sdkError msg response)
    (h2 : ((statusOf response).any fun s => transientStatuses.contains s) = false)
    (h3 : 1 ≤ maxRetries) :
    retryRun outcomes nowAt obs maxRetries = (.err msg, [], 1) ∧
    (∀ outcomes' : Nat → CallOutcome,
      (∀ a, 1 ≤ a → a ≤ maxRetries → isTransientOutcome (outcomes' a) = true) →
      (retryRun outcomes' nowAt obs maxRetries).1 = .err "Maximum retries exceeded" ∧
      (retryRun outcomes' nowAt obs maxRetries).2.2 = maxRetries) := by
  constructor
  · obtain ⟨m, rfl⟩ : ∃ m, maxRetries = m + 1 :=
      ⟨maxRetries - 1, by omega⟩
    rw [retryRun]
    simp only [retryAux, h1, h2]
    rfl
  · intro outcomes' htrans
    exact retryAux_exhaust outcomes' nowAt obs maxRetries 1
      (fun a ha1 ha2 => htrans a ha1 (by omega))

/-- Witness for C6: a 400 response stops immediately with the SDK message
after one call; two consecutive 500 responses with max_retries 2 end with
"Maximum retries exceeded" after two calls. -/
theorem retry_nontransient_and_exhaustion_witness :
    retryRun (fun _ => .sdkError "denied"
        (some ⟨400, .absent, .absent, .absent, .absent, none⟩))
      (fun _ => 0) false 2 = (.err "denied", [], 1) ∧
    (∀ outcomes' : Nat → CallOutcome,
      (∀ a, 1 ≤ a → a ≤ 2 → isTransientOutcome (outcomes' a) = true) →
      (retryRun outcomes' (fun _ => 0) false 2).1 = .err "Maximum retries exceeded" ∧
      (retryRun outcomes' (fun _ => 0) false 2).2.2 = 2) := by
  have h := retry_nontransient_and_exhaustion
    (fun _ => .sdkError "denied" (some ⟨400, .absent, .absent, .absent, .absent, none⟩))
    (fun _ => 0) false 2 "denied" (some ⟨400, .absent, .absent, .absent, .absent, none⟩)
    rfl (by decide) (by decide)
  exact h

/-! ## C7: the poll loop never returns a bundle without completion and
times out -/

theorem pollLoop_no_bundle (timeout : Option ℚ) (p : ℚ) (fetchTime : Nat → ℚ)
    (statusAt : Nat → String) (tid : String)
    (hs : ∀ j, statusAt j ≠ "completed") :
    ∀ fuel elapsed last i,
      (pollLoop timeout p fetchTime statusAt tid elapsed last i fuel).isBundle = false := by
  intro fuel
  induction fuel with
  | zero => intro elapsed last i; rfl
  | succ f ih =>
    intro elapsed last i
    by_cases hto : timeoutExceeded timeout elapsed = true
    · simp [pollLoop, hto, PollOutcome.isBundle]
    · by_cases herr : statusAt i = "error"
      · simp [pollLoop, hto, hs i, herr, PollOutcome.isBundle]
      · have hcal : pollLoop timeout p fetchTime statusAt tid elapsed last i (f + 1) =
            pollLoop timeout p fetchTime statusAt tid (elapsed + fetchTime i + p)
              (some (statusAt i)) (i + 1) f := by
          simp [pollLoop, hto, hs i, herr]
        rw [hcal]
        exact ih _ _ _

theorem pollLoop_timeout_reach (T p : ℚ) (fetchTime : Nat → ℚ)
    (statusAt : Nat → String) (tid : String)
    (hf : ∀ j, 0 ≤ fetchTime j)
    (hs : ∀ j, statusAt j ≠ "completed" ∧ statusAt j ≠ "error") :
    ∀ (fuel : Nat) (elapsed : ℚ) (last : Option String) (i : Nat),
      T < elapsed + (fuel : ℚ) * p →
      ∃ s, pollLoop (some T) p fetchTime statusAt tid elapsed last i (fuel + 1) =
          .timedOut tid s ∧ (s = last ∨ ∃ k, s = some (statusAt k)) := by
  intro fuel
  induction fuel with
  | zero =>
    intro elapsed last i hT
    have hto : timeoutExceeded (some T) elapsed = true := by
      simp only [timeoutExceeded, decide_eq_true_eq]
      push_cast at hT
      linarith
    exact ⟨last, by simp [pollLoop, hto], Or.inl rfl⟩
  | succ f ih =>
    intro elapsed last i hT
    by_cases hto : timeoutExceeded (some T) elapsed = true
    · exact ⟨last, by simp [pollLoop, hto], Or.inl rfl⟩
    · have h2 : T < (elapsed + fetchTime i + p) + (f : ℚ) * p := by
        push_cast at hT
        have := hf i
        have hple : elapsed + ((f : ℚ) + 1) * p = elapsed + (f : ℚ) * p + p := by ring
        nlinarith [hT]
      obtain ⟨s, hrun, hsh⟩ := ih (elapsed + fetchTime i + p) (some (statusAt i)) (i + 1) h2
      refine ⟨s, ?_, ?_⟩
      · have hcal : pollLoop (some T) p fetchTime statusAt tid elapsed last i (f + 1 + 1) =
            pollLoop (some T) p fetchTime statusAt tid (elapsed + fetchTime i + p)
              (some (statusAt i)) (i + 1) (f + 1) := by
          simp [pollLoop, hto, (hs i).1, (hs i).2]
        rw [hcal, hrun]
      · rcases hsh with h | h
        · exact Or.inr ⟨i, h⟩
        · exact Or.inr h

/-- C7: with a positive poll interval and a finite timeout, when the
remote status is never terminal the poll loop never produces a completed
bundle for any amount of fuel, and for sufficient fuel it fails with a
timeout error carrying the transcript id and the last observed status. -/
theorem transcribe_poll_times_out (T p : ℚ) (fetchTime : Nat → ℚ)
    (statusAt : Nat → String) (tid : String)
    (hT : 0 ≤ T) (hp : 0 < p) (hf : ∀ j, 0 ≤ fetchTime j)
    (hs : ∀ j, statusAt j ≠ "completed" ∧ statusAt j ≠ "error") :
    (∀ fuel elapsed last i,
      (pollLoop (some T) p fetchTime statusAt tid elapsed last i fuel).isBundle = false) ∧
    (∃ fuel k, pollLoop (some T) p fetchTime statusAt tid 0 none 0 fuel =
      .timedOut tid (some (statusAt k))) := by
  refine ⟨pollLoop_no_bundle (some T) p fetchTime statusAt tid (fun j => (hs j).1), ?_⟩
  have hdiv : T < (0 + fetchTime 0 + p) + ((⌈T / p⌉₊ : ℚ) + 1) * p := by
    have h1 : T / p ≤ (⌈T / p⌉₊ : ℚ) := Nat.le_ceil _
    have h2 : (T / p) * p = T := div_mul_cancel₀ T (ne_of_gt hp)
    have h3 : (T / p) * p ≤ (⌈T / p⌉₊ : ℚ) * p :=
      mul_le_mul_of_nonneg_right h1 (le_of_lt hp)
    have := hf 0
    nlinarith
  obtain ⟨s, hrun, hsh⟩ := pollLoop_timeout_reach T p fetchTime statusAt tid hf hs
    (⌈T / p⌉₊ + 1) (0 + fetchTime 0 + p) (some (statusAt 0)) 1 (by push_cast; linarith [hdiv])
  have hstep : pollLoop (some T) p fetchTime statusAt tid 0 none 0 (⌈T / p⌉₊ + 1 + 1 + 1) =
      pollLoop (some T) p fetchTime statusAt tid (0 + fetchTime 0 + p)
        (some (statusAt 0)) 1 (⌈T / p⌉₊ + 1 + 1) := by
    have hto : timeoutExceeded (some T) 0 = false := by
      simp only [timeoutExceeded, decide_eq_false_iff_not, not_lt]
      exact hT
    simp [pollLoop, hto, (hs 0).1, (hs 0).2]
  rcases hsh with h | h
  · exact ⟨⌈T / p⌉₊ + 1 + 1 + 1, 0, by rw [hstep, hrun, h]⟩
  · obtain ⟨k, hk⟩ := h
    exact ⟨⌈T / p⌉₊ + 1 + 1 + 1, k, by rw [hstep, hrun, hk]⟩

/-- Witness for C7: poll interval 2, timeout 3, status constantly
"queued". -/
theorem transcribe_poll_times_out_witness :
    (∀ fuel elapsed last i,
      (pollLoop (some 3) 2 (fun _ => 0) (fun _ => "queued") "t1"
        elapsed last i fuel).isBundle = false) ∧
    (∃ (fuel k : Nat), pollLoop (some 3) 2 (fun _ => 0) (fun _ => "queued") "t1" 0 none 0 fuel =
      .timedOut "t1" (some "queued")) :=
  transcribe_poll_times_out 3 2 (fun _ => 0) (fun _ => "queued") "t1"
    (by norm_num) (by norm_num) (fun j => le_refl 0)
    (fun j => ⟨(by decide : ("queued" : String) ≠ "completed"),
               (by decide : ("queued" : String) ≠ "error")⟩)

/-! ## C8: save_bundle -/

/-- C8: save_bundle fails with the normalization ValidationError exactly
when the filename does not normalize; otherwise it writes the payload to
folder/transcription_id.json under the normalized folder and returns that
path and folder, with each caption path present iff the corresponding
caption text was provided. -/
theorem save_bundle_paths (root filename tid payload : String) (vtt srt : Option String) :
    (∀ msg, normalize_to_dirname filename = .error msg →
      save_bundle root filename tid payload vtt srt = .error msg) ∧
    (∀ safe, normalize_to_dirname filename = .ok safe →
      ∃ res writes, save_bundle root filename tid payload vtt srt = .ok (res, writes) ∧
        res.folder = joinPath root safe ∧
        res.json_path = joinPath res.folder (tid ++ ".json") ∧
        (res.json_path, payload) ∈ writes ∧
        (res.vtt_path.isSome ↔ vtt.isSome) ∧
        (res.srt_path.isSome ↔ srt.isSome)) := by
  constructor
  · intro msg h
    simp [save_bundle, h]
  · intro safe h
    refine ⟨{ folder := joinPath root safe,
              json_path := joinPath (joinPath root safe) (tid ++ ".json"),
              vtt_path := (writeText (joinPath (joinPath root safe) (tid ++ ".vtt")) vtt).1,
              srt_path := (writeText (joinPath (joinPath root safe) (tid ++ ".srt")) srt).1 },
            [(joinPath (joinPath root safe) (tid ++ ".json"), payload)] ++
              (writeText (joinPath (joinPath root safe) (tid ++ ".vtt")) vtt).2 ++
              (writeText (joinPath (joinPath root safe) (tid ++ ".srt")) srt).2,
            ?_, rfl, rfl, by simp, ?_, ?_⟩
    · simp [save_bundle, h]
    · cases vtt <;> simp [writeText]
    · cases srt <;> simp [writeText]

/-- Witness for C8: an mp3 filename normalizes to its stem and the vtt
caption is present while the srt caption is absent. -/
theorem save_bundle_paths_witness :
    ∃ res writes, save_bundle "root" "audio.mp3" "t1" "PAYLOAD" (some "VTT") none =
      .ok (res, writes) ∧
      res.folder = joinPath "root" "audio" ∧
      res.json_path = joinPath res.folder ("t1" ++ ".json") ∧
      (res.json_path, "PAYLOAD") ∈ writes ∧
      (res.vtt_path.isSome ↔ (some "VTT").isSome) ∧
      (res.srt_path.isSome ↔ (none : Option String).isSome) :=
  (save_bundle_paths "root" "audio.mp3" "t1" "PAYLOAD" (some "VTT") none).2 "audio"
    (by rfl)

/-! ## C2 and C10: ensure_unique_filenames -/

theorem mem_setAdd_self (l : List String) (x : String) : x ∈ setAdd l x := by
  by_cases h : l.contains x
  · rw [setAdd, if_pos h]
    exact List.elem_iff.mp h
  · rw [setAdd, if_neg h]
    exact List.mem_append_right l (List.mem_singleton.mpr rfl)

theorem mem_setAdd_of_mem (l : List String) (x y : String) (h : y ∈ l) :
    y ∈ setAdd l x := by
  by_cases hc : l.contains x
  · rwa [setAdd, if_pos hc]
  · rw [setAdd, if_neg hc]
    exact List.mem_append_left _ h

theorem ensureUniqueAux_ok_spec :
    ∀ (rows : List CsvRow) (seen dups : List String),
      (∀ r ∈ rows, rowNormSucceeds r = true) →
      ∃ d, ensureUniqueAux rows seen dups = .ok d ∧
        (∀ x ∈ dups, x ∈ d) ∧
        (∀ b : Nat, b < rows.length →
          (rowNormKey (rows.getD b dummyRow) ∈ seen ∨
           ∃ a, a < b ∧ rowNormKey (rows.getD a dummyRow) = rowNormKey (rows.getD b dummyRow)) →
          rowDupName (rows.getD b dummyRow) ∈ d) := by
  intro rows
  induction rows with
  | nil =>
    intro seen dups _
    exact ⟨dups, rfl, fun x hx => hx, fun b hb _ => absurd hb (by simp)⟩
  | cons row rest ih =>
    intro seen dups hok
    have hrow := hok row (List.mem_cons_self row rest)
    rw [rowNormSucceeds] at hrow
    cases hn : normalize_to_dirname row.filename with
    | error e => rw [hn] at hrow; simp [Except.isOk, Except.toBool] at hrow
    | ok n =>
      have hkey : rowNormKey row = pyLower n := by
        rw [rowNormKey, hn]; rfl
      have hname : rowDupName row = (if row.filename = "" then n else row.filename) := by
        rw [rowDupName, hn]; rfl
      have hok' : ∀ r ∈ rest, rowNormSucceeds r = true :=
        fun r hr => hok r (List.mem_cons_of_mem _ hr)
      by_cases hseen : seen.contains (pyLower n)
      · obtain ⟨d, hd, hmono, hcov⟩ :=
          ih seen (setAdd dups (if row.filename = "" then n else row.filename)) hok'
        refine ⟨d, ?_, ?_, ?_⟩
        · simp only [ensureUniqueAux, hn, hseen, if_true]
          exact hd
        · intro x hx
          exact hmono x (mem_setAdd_of_mem _ _ _ hx)
        · intro b hb hcond
          cases b with
          | zero =>
            simp only [List.getD_cons_zero]
            rw [hname]
            exact hmono _ (mem_setAdd_self _ _)
          | succ b' =>
            simp only [List.getD_cons_succ] at hcond ⊢
            apply hcov b' (by simp only [List.length_cons] at hb; omega)
            rcases hcond with hc | ⟨a, ha, hae⟩
            · exact Or.inl hc
            · cases a with
              | zero =>
                left
                simp only [List.getD_cons_zero] at hae
                rw [← hae, hkey]
                exact List.elem_iff.mp hseen
              | succ a' =>
                right
                exact ⟨a', by omega, by simpa using hae⟩
      · obtain ⟨d, hd, hmono, hcov⟩ := ih (setAdd seen (pyLower n)) dups hok'
        refine ⟨d, ?_, hmono, ?_⟩
        · simp only [ensureUniqueAux, hn, hseen, if_false]
          exact hd
        · intro b hb hcond
          cases b with
          | zero =>
            exfalso
            simp only [List.getD_cons_zero] at hcond
            rcases hcond with hc | ⟨a, ha, _⟩
            · rw [hkey] at hc
              exact hseen (List.elem_iff.mpr hc)
            · omega
          | succ b' =>
            simp only [List.getD_cons_succ] at hcond ⊢
            apply hcov b' (by simp only [List.length_cons] at hb; omega)
            rcases hcond with hc | ⟨a, ha, hae⟩
            · exact Or.inl (mem_setAdd_of_mem _ _ _ hc)
            · cases a with
              | zero =>
                left
                simp only [List.getD_cons_zero] at hae
                rw [← hae, hkey]
                exact mem_setAdd_self _ _
              | succ a' =>
                right
                exact ⟨a', by omega, by simpa using hae⟩

/-- C2 counterexample: in a candidate set where the first two rows
collide on the normalized name but a later row fails normalization, the
function raises the normalization error for that later row instead of a
ValidationError listing the duplicate, so the claim as stated (which
requires the duplicate listing for every such sequence, after examining
the full set) fails. -/
theorem ensure_unique_counterexample :
    rowNormKey ((([⟨0, [("filename", "a.mp3")]⟩, ⟨1, [("filename", "a.mp3")]⟩,
        ⟨2, [("filename", "!!!")]⟩] : List CsvRow)).getD 0 dummyRow) =
      rowNormKey ((([⟨0, [("filename", "a.mp3")]⟩, ⟨1, [("filename", "a.mp3")]⟩,
        ⟨2, [("filename", "!!!")]⟩] : List CsvRow)).getD 1 dummyRow) ∧
    ensure_unique_filenames
      [⟨0, [("filename", "a.mp3")]⟩, ⟨1, [("filename", "a.mp3")]⟩,
       ⟨2, [("filename", "!!!")]⟩] =
      .error (.normError 2 "Filename cannot be normalized; specify a safer name") ∧
    ensure_unique_filenames
      [⟨0, [("filename", "a.mp3")]⟩, ⟨1, [("filename", "a.mp3")]⟩,
       ⟨2, [("filename", "!!!")]⟩] ≠ .error (.duplicates ["a.mp3"]) := by
  refine ⟨rfl, rfl, ?_⟩
  intro h
  exact absurd h (by decide)

/-- C2 amended: for every sequence of rows whose filenames all normalize
successfully, if two rows normalize to the same case-insensitive folder
name then ensure_unique_filenames fails with the ValidationError listing
the duplicates, and the listing covers every duplicate: for every pair of
colliding positions the later row's recorded name is in the list, having
examined the full candidate set. -/
theorem ensure_unique_reports_all_duplicates (rows : List CsvRow)
    (hok : ∀ r ∈ rows, rowNormSucceeds r = true) (i j : Nat)
    (hij : i < j) (hj : j < rows.length)
    (hcol : rowNormKey (rows.getD i dummyRow) = rowNormKey (rows.getD j dummyRow)) :
    ∃ names, ensure_unique_filenames rows = .error (.duplicates names) ∧
      names ≠ [] ∧
      ∀ a b : Nat, a < b → b < rows.length →
        rowNormKey (rows.getD a dummyRow) = rowNormKey (rows.getD b dummyRow) →
        rowDupName (rows.getD b dummyRow) ∈ names := by
  obtain ⟨d, hd, _, hcov⟩ := ensureUniqueAux_ok_spec rows [] [] hok
  have hmem : rowDupName (rows.getD j dummyRow) ∈ d :=
    hcov j hj (Or.inr ⟨i, hij, hcol⟩)
  have hdne : ¬(d = []) := List.ne_nil_of_mem hmem
  refine ⟨d.mergeSort (fun a b => decide (a ≤ b)), ?_, ?_, ?_⟩
  · simp only [ensure_unique_filenames, hd, hdne, if_false]
  · intro hempty
    have hm : rowDupName (rows.getD j dummyRow) ∈
        d.mergeSort (fun a b => decide (a ≤ b)) := List.mem_mergeSort.mpr hmem
    rw [hempty] at hm
    exact absurd hm (List.not_mem_nil _)
  · intro a b hab hb hk
    exact List.mem_mergeSort.mpr (hcov b hb (Or.inr ⟨a, hab, hk⟩))

/-- Witness for C2 at two rows whose names differ only by case. -/
theorem ensure_unique_reports_all_duplicates_witness :
    ∃ names, ensure_unique_filenames
        [⟨0, [("filename", "A.mp3")]⟩, ⟨1, [("filename", "a.mp3")]⟩] =
      .error (.duplicates names) ∧
      names ≠ [] ∧
      ∀ a b : Nat, a < b →
        b < ([⟨0, [("filename", "A.mp3")]⟩, ⟨1, [("filename", "a.mp3")]⟩] :
          List CsvRow).length →
        rowNormKey (([⟨0, [("filename", "A.mp3")]⟩, ⟨1, [("filename", "a.mp3")]⟩] :
          List CsvRow).getD a dummyRow) =
          rowNormKey (([⟨0, [("filename", "A.mp3")]⟩, ⟨1, [("filename", "a.mp3")]⟩] :
            List CsvRow).getD b dummyRow) →
        rowDupName (([⟨0, [("filename", "A.mp3")]⟩, ⟨1, [("filename", "a.mp3")]⟩] :
          List CsvRow).getD b dummyRow) ∈ names :=
  ensure_unique_reports_all_duplicates
    [⟨0, [("filename", "A.mp3")]⟩, ⟨1, [("filename", "a.mp3")]⟩]
    (by decide) 0 1 (by decide) (by decide) (by rfl)

theorem ensureUniqueAux_norm_error :
    ∀ (pre : List CsvRow) (bad : CsvRow) (rest : List CsvRow) (msg : String)
      (seen dups : List String),
      (∀ r ∈ pre, rowNormSucceeds r = true) →
      normalize_to_dirname bad.filename = .error msg →
      ensureUniqueAux (pre ++ bad :: rest) seen dups =
        .error (.normError bad.index msg) := by
  intro pre
  induction pre with
  | nil =>
    intro bad rest msg seen dups _ hbad
    simp only [List.nil_append, ensureUniqueAux, hbad]
  | cons row pre' ih =>
    intro bad rest msg seen dups hok hbad
    have hrow := hok row (List.mem_cons_self row pre')
    rw [rowNormSucceeds] at hrow
    cases hn : normalize_to_dirname row.filename with
    | error e => rw [hn] at hrow; simp [Except.isOk, Except.toBool] at hrow
    | ok n =>
      have hok' : ∀ r ∈ pre', rowNormSucceeds r = true :=
        fun r hr => hok r (List.mem_cons_of_mem _ hr)
      by_cases hseen : seen.contains (pyLower n) <;>
        simp only [List.cons_append, ensureUniqueAux, hn, hseen, if_true, if_false] <;>
        exact ih bad rest msg _ _ hok' hbad

/-- C10: when the first row whose filename fails normalization sits at
some position, ensure_unique_filenames raises the ValidationError naming
that row's index and the normalization message, whatever rows (and
whatever duplicates) come after it: the result does not depend on the
tail. -/
theorem ensure_unique_norm_error_short_circuits (pre : List CsvRow) (bad : CsvRow)
    (rest rest' : List CsvRow) (msg : String)
    (hok : ∀ r ∈ pre, rowNormSucceeds r = true)
    (hbad : normalize_to_dirname bad.filename = .error msg) :
    ensure_unique_filenames (pre ++ bad :: rest) =
      .error (.normError bad.index msg) ∧
    ensure_unique_filenames (pre ++ bad :: rest) =
      ensure_unique_filenames (pre ++ bad :: rest') := by
  have h1 := ensureUniqueAux_norm_error pre bad rest msg [] [] hok hbad
  have h2 := ensureUniqueAux_norm_error pre bad rest' msg [] [] hok hbad
  constructor
  · simp only [ensure_unique_filenames, h1]
  · simp only [ensure_unique_filenames, h1, h2]

/-- Witness for C10: a duplicated pair of rows followed by an
unnormalizable row raises the per-row normalization error, with or
without a further tail row. -/
theorem ensure_unique_norm_error_short_circuits_witness :
    ensure_unique_filenames
      ([⟨0, [("filename", "a.mp3")]⟩, ⟨1, [("filename", "a.mp3")]⟩] ++
        (⟨2, [("filename", "!!!")]⟩ : CsvRow) :: []) =
      .error (.normError 2 "Filename cannot be normalized; specify a safer name") ∧
    ensure_unique_filenames
      ([⟨0, [("filename", "a.mp3")]⟩, ⟨1, [("filename", "a.mp3")]⟩] ++
        (⟨2, [("filename", "!!!")]⟩ : CsvRow) :: []) =
      ensure_unique_filenames
        ([⟨0, [("filename", "a.mp3")]⟩, ⟨1, [("filename", "a.mp3")]⟩] ++
          (⟨2, [("filename", "!!!")]⟩ : CsvRow) :: [⟨3, [("filename", "b.mp3")]⟩]) :=
  ensure_unique_norm_error_short_circuits
    [⟨0, [("filename", "a.mp3")]⟩, ⟨1, [("filename", "a.mp3")]⟩]
    ⟨2, [("filename", "!!!")]⟩ [] [⟨3, [("filename", "b.mp3")]⟩]
    "Filename cannot be normalized; specify a safer name" (by decide) (by rfl)

/-! ## C9: flush followed by load is the identity -/

theorem dmem_iff_mem_dkeys (d : Dict) (k : String) : dmem d k = true ↔ k ∈ dkeys d := by
  simp only [dmem, List.any_eq_true, decide_eq_true_eq, dkeys, List.mem_map]

theorem dkeys_dset_of_mem (d : Dict) (k v : String) (h : dmem d k = true) :
    dkeys (dset d k v) = dkeys d := by
  induction d with
  | nil => simp [dmem] at h
  | cons p rest ih =>
    by_cases hp : p.1 = k
    · rw [dset, if_pos hp]
      show k :: dkeys rest = p.1 :: dkeys rest
      rw [hp]
    · rw [dset, if_neg hp]
      have hm : dmem rest k = true := by
        rw [dmem_cons] at h
        simpa [hp] using h
      show p.1 :: dkeys (dset rest k v) = p.1 :: dkeys rest
      rw [ih hm]

theorem dsetdefault_of_dmem (d : Dict) (k v : String) (h : dmem d k = true) :
    dsetdefault d k v = d := by
  rw [dsetdefault, if_pos h]

theorem foldl_dsetdefault_of_dmem :
    ∀ (cols : List String) (d : Dict), (∀ c ∈ cols, dmem d c = true) →
      cols.foldl (fun r col => dsetdefault r col "") d = d := by
  intro cols
  induction cols with
  | nil => intro d _; rfl
  | cons c cs ih =>
    intro d h
    show cs.foldl _ (dsetdefault d c "") = d
    rw [dsetdefault_of_dmem d c "" (h c (List.mem_cons_self c cs))]
    exact ih d (fun x hx => h x (List.mem_cons_of_mem _ hx))

theorem ensureDefaults_of_dmem (d : Dict)
    (h : ∀ c ∈ DEFAULT_COLUMNS, dmem d c = true) : ensureDefaults d = d :=
  foldl_dsetdefault_of_dmem DEFAULT_COLUMNS d h

theorem dkeys_dsetdefault (d : Dict) (k v : String) :
    dkeys (dsetdefault d k v) =
      (if (dkeys d).contains k then dkeys d else dkeys d ++ [k]) := by
  by_cases hm : dmem d k = true
  · rw [dsetdefault_of_dmem d k v hm,
      if_pos (List.elem_iff.mpr ((dmem_iff_mem_dkeys d k).mp hm))]
  · rw [dsetdefault, if_neg hm, if_neg (fun hc =>
      hm ((dmem_iff_mem_dkeys d k).mpr (List.elem_iff.mp hc)))]
    simp [dkeys]

theorem dkeys_foldl_dsetdefault :
    ∀ (cols : List String) (d : Dict),
      dkeys (cols.foldl (fun r col => dsetdefault r col "") d) =
        addMissingCols (dkeys d) cols := by
  intro cols
  induction cols with
  | nil => intro d; rfl
  | cons c cs ih =>
    intro d
    show dkeys (cs.foldl _ (dsetdefault d c "")) = addMissingCols (dkeys d) (c :: cs)
    rw [ih (dsetdefault d c "")]
    show addMissingCols (dkeys (dsetdefault d c "")) cs =
      addMissingCols (if (dkeys d).contains c then dkeys d else dkeys d ++ [c]) cs
    rw [dkeys_dsetdefault]

theorem addMissingCols_nodup :
    ∀ (cols fs : List String), fs.Nodup → (addMissingCols fs cols).Nodup := by
  intro cols
  induction cols with
  | nil => intro fs h; exact h
  | cons c cs ih =>
    intro fs h
    show (addMissingCols (if fs.contains c then fs else fs ++ [c]) cs).Nodup
    by_cases hc : fs.contains c
    · rw [if_pos hc]
      exact ih fs h
    · rw [if_neg hc]
      refine ih _ ?_
      have hnotmem : c ∉ fs := fun hm => hc (List.elem_iff.mpr hm)
      simp [List.nodup_append, h, hnotmem]

theorem mem_addMissingCols_of_mem :
    ∀ (cols fs : List String) (x : String), x ∈ fs → x ∈ addMissingCols fs cols := by
  intro cols
  induction cols with
  | nil => intro fs x h; exact h
  | cons c cs ih =>
    intro fs x h
    show x ∈ addMissingCols (if fs.contains c then fs else fs ++ [c]) cs
    by_cases hc : fs.contains c
    · rw [if_pos hc]
      exact ih fs x h
    · rw [if_neg hc]
      exact ih _ x (List.mem_append_left _ h)

theorem mem_addMissingCols_of_mem_cols :
    ∀ (cols fs : List String) (c : String), c ∈ cols → c ∈ addMissingCols fs cols := by
  intro cols
  induction cols with
  | nil => intro fs c h; exact absurd h (List.not_mem_nil c)
  | cons c0 cs ih =>
    intro fs c h
    rcases List.mem_cons.mp h with rfl | h'
    · show c ∈ addMissingCols (if fs.contains c then fs else fs ++ [c]) cs
      apply mem_addMissingCols_of_mem
      by_cases hc : fs.contains c
      · rw [if_pos hc]
        exact List.elem_iff.mp hc
      · rw [if_neg hc]
        exact List.mem_append_right _ (List.mem_singleton.mpr rfl)
    · exact ih _ c h'

theorem addMissingCols_of_contains :
    ∀ (cols fs : List String), (∀ c ∈ cols, fs.contains c = true) →
      addMissingCols fs cols = fs := by
  intro cols
  induction cols with
  | nil => intro fs _; rfl
  | cons c cs ih =>
    intro fs h
    show addMissingCols (if fs.contains c then fs else fs ++ [c]) cs = fs
    rw [if_pos (h c (List.mem_cons_self c cs))]
    exact ih fs (fun x hx => h x (List.mem_cons_of_mem _ hx))

theorem dictZip_proj :
    ∀ (d : Dict) (fns : List String), dkeys d = fns → fns.Nodup →
      dictZip fns (fns.map (fun k => dget d k)) = d := by
  intro d
  induction d with
  | nil =>
    intro fns hk _
    rw [← hk]
    rfl
  | cons p rest ih =>
    intro fns hk hnd
    subst hk
    show dictZip (p.1 :: dkeys rest)
      ((p.1 :: dkeys rest).map (fun k => dget (p :: rest) k)) = p :: rest
    rw [List.map_cons]
    show (p.1, dget (p :: rest) p.1) ::
      dictZip (dkeys rest) ((dkeys rest).map (fun k => dget (p :: rest) k)) = p :: rest
    have h1 : dget (p :: rest) p.1 = p.2 := by rw [dget_cons, if_pos rfl]
    have hnotin : p.1 ∉ dkeys rest := (List.nodup_cons.mp hnd).1
    have h2 : (dkeys rest).map (fun k => dget (p :: rest) k) =
        (dkeys rest).map (fun k => dget rest k) := by
      apply List.map_congr_left
      intro k hkmem
      rw [dget_cons, if_neg (fun he => hnotin (by rwa [he]))]
    rw [h1, h2, ih (dkeys rest) rfl (List.nodup_cons.mp hnd).2, Prod.mk.eta]

theorem dkeys_dictZip (header rec : List String) (h : rec.length = header.length) :
    dkeys (dictZip header rec) = header := by
  rw [dictZip, dkeys]
  exact List.map_fst_zip header rec (le_of_eq h.symm)

theorem loadTable_wf (t : CsvTable) (st : CsvStore)
    (hwf : wellFormedTable t = true) (hload : loadTable t = .ok st) : WFStore st := by
  match t with
  | [] => exact absurd hwf (by rw [wellFormedTable]; simp)
  | header :: records =>
    rw [wellFormedTable, Bool.and_eq_true] at hwf
    obtain ⟨hnd', hrect'⟩ := hwf
    have hnd : header.Nodup := of_decide_eq_true hnd'
    have hrect : ∀ rec ∈ records, rec.length = header.length := by
      intro rec hr
      have := (List.all_eq_true.mp hrect') rec hr
      simpa using this
    rw [loadTable] at hload
    by_cases hemp : header.isEmpty
    · rw [if_pos hemp] at hload
      exact absurd hload (by simp)
    · rw [if_neg hemp] at hload
      by_cases hmiss : (REQUIRED_COLUMNS.filter (fun col => ! header.contains col)).isEmpty
      · rw [if_pos hmiss] at hload
        have hst := Except.ok.inj hload
        subst hst
        have hhead : ∀ c, c ∈ header → (addMissingCols header DEFAULT_COLUMNS).contains c := by
          intro c hc
          exact List.elem_iff.mpr (mem_addMissingCols_of_mem DEFAULT_COLUMNS header c hc)
        have hmiss' : ∀ c ∈ REQUIRED_COLUMNS, header.contains c = true := by
          rw [List.isEmpty_iff, List.filter_eq_nil_iff] at hmiss
          intro c hc
          have := hmiss c hc
          simpa using this
        refine ⟨?_, ?_, ?_, addMissingCols_nodup DEFAULT_COLUMNS header hnd, ?_⟩
        · have hne : header ≠ [] := by
            intro he
            rw [he] at hemp
            exact hemp rfl
          obtain ⟨a, ha⟩ := List.exists_mem_of_ne_nil header hne
          exact List.ne_nil_of_mem (mem_addMissingCols_of_mem DEFAULT_COLUMNS header a ha)
        · intro c hc
          exact hhead c (List.elem_iff.mp (hmiss' c hc))
        · intro c hc
          exact List.elem_iff.mpr (mem_addMissingCols_of_mem_cols DEFAULT_COLUMNS header c hc)
        · intro row hrow
          obtain ⟨rec, hrec, rfl⟩ := List.mem_map.mp hrow
          have hlen : rec.length = header.length :=
            hrect rec (List.mem_of_mem_filter hrec)
          show dkeys (DEFAULT_COLUMNS.foldl (fun r col => dsetdefault r col "")
            (dictZip header rec)) = addMissingCols header DEFAULT_COLUMNS
          rw [dkeys_foldl_dsetdefault, dkeys_dictZip header rec hlen]
      · rw [if_neg hmiss] at hload
        exact absurd hload (by simp)

theorem WFStore_set_entry (st : CsvStore) (i : Nat) (entry : Dict)
    (h : WFStore st)
    (hent : i < st.rows.length → dkeys entry = st.fieldnames) :
    WFStore { st with rows := st.rows.set i entry } := by
  obtain ⟨h1, h2, h3, h4, h5⟩ := h
  refine ⟨h1, h2, h3, h4, ?_⟩
  intro row hrow
  by_cases hi : i < st.rows.length
  · rcases List.mem_or_eq_of_mem_set hrow with hm | rfl
    · exact h5 row hm
    · exact hent hi
  · rw [List.set_eq_of_length_le (by omega)] at hrow
    exact h5 row hrow

theorem WFStore_applyMut (st : CsvStore) (m : LedgerMut) (h : WFStore st) :
    WFStore (applyMut st m) := by
  have h3 := h.2.2.1
  have h5 := h.2.2.2.2
  have hentry : ∀ i, i < st.rows.length → dkeys (st.rows.getD i []) = st.fieldnames := by
    intro i hi
    have he : st.rows.getD i [] ∈ st.rows := by
      rw [List.getD_eq_getElem st.rows [] hi]
      exact List.getElem_mem hi
    exact h5 _ he
  have hdm : ∀ i, i < st.rows.length → ∀ c ∈ DEFAULT_COLUMNS,
      dmem (st.rows.getD i []) c = true := by
    intro i hi c hc
    rw [dmem_iff_mem_dkeys, hentry i hi]
    exact List.elem_iff.mp (h3 c hc)
  cases m with
  | completed i tid =>
    simp only [applyMut, CsvStore.mark_completed]
    apply WFStore_set_entry st i _ h
    intro hi
    have m1 : dmem (st.rows.getD i []) "transcription_id" = true :=
      hdm i hi _ (by decide)
    have e1 : dkeys (dset (st.rows.getD i []) "transcription_id" tid) = st.fieldnames :=
      (dkeys_dset_of_mem _ _ _ m1).trans (hentry i hi)
    have m2 : dmem (dset (st.rows.getD i []) "transcription_id" tid) "status" = true := by
      rw [dmem_iff_mem_dkeys, e1]
      exact List.elem_iff.mp (h3 "status" (by decide))
    have e2 : dkeys (dset (dset (st.rows.getD i []) "transcription_id" tid)
        "status" "completed") = st.fieldnames :=
      (dkeys_dset_of_mem _ _ _ m2).trans e1
    have m3 : dmem (dset (dset (st.rows.getD i []) "transcription_id" tid)
        "status" "completed") "error" = true := by
      rw [dmem_iff_mem_dkeys, e2]
      exact List.elem_iff.mp (h3 "error" (by decide))
    exact (dkeys_dset_of_mem _ _ _ m3).trans e2
  | failed i msg =>
    simp only [applyMut, CsvStore.mark_failed]
    apply WFStore_set_entry st i _ h
    intro hi
    have m1 : dmem (st.rows.getD i []) "transcription_id" = true :=
      hdm i hi _ (by decide)
    rw [dsetdefault_of_dmem _ _ _ m1]
    have m2 : dmem (st.rows.getD i []) "status" = true := hdm i hi _ (by decide)
    have e2 : dkeys (dset (st.rows.getD i []) "status" "error") = st.fieldnames :=
      (dkeys_dset_of_mem _ _ _ m2).trans (hentry i hi)
    have m3 : dmem (dset (st.rows.getD i []) "status" "error") "error" = true := by
      rw [dmem_iff_mem_dkeys, e2]
      exact List.elem_iff.mp (h3 "error" (by decide))
    exact (dkeys_dset_of_mem _ _ _ m3).trans e2

theorem WFStore_applyMuts :
    ∀ (muts : List LedgerMut) (st : CsvStore), WFStore st →
      WFStore (applyMuts st muts) := by
  intro muts
  induction muts with
  | nil => intro st h; exact h
  | cons m ms ih =>
    intro st h
    show WFStore (applyMuts (applyMut st m) ms)
    exact ih _ (WFStore_applyMut st m h)

theorem loadTable_serializeRows (st : CsvStore) (h : WFStore st) :
    loadTable (serializeRows st) = .ok st := by
  obtain ⟨fns, rows⟩ := st
  obtain ⟨h1, h2, h3, h4, h5⟩ := h
  dsimp only at h1 h2 h3 h4 h5
  rw [serializeRows, loadTable]
  rw [if_neg (by simp only [List.isEmpty_iff]; exact h1)]
  rw [if_pos (by
    rw [List.isEmpty_iff, List.filter_eq_nil_iff]
    intro c hc
    simp only [Bool.not_eq_true', Bool.not_eq_false]
    exact h2 c hc)]
  have hfilter : ((rows.map (fun row => fns.map (fun key => dget row key))).filter
      (fun rec => ! rec.isEmpty)) =
      rows.map (fun row => fns.map (fun key => dget row key)) := by
    apply List.filter_eq_self.mpr
    intro rec hrec
    obtain ⟨row, _, rfl⟩ := List.mem_map.mp hrec
    obtain ⟨f, fs, hfns⟩ := List.exists_cons_of_ne_nil h1
    rw [hfns]
    rfl
  have hrows : ∀ row ∈ rows,
      ensureDefaults (dictZip fns (fns.map (fun key => dget row key))) = row := by
    intro row hrow
    rw [dictZip_proj row fns (h5 row hrow) h4]
    exact ensureDefaults_of_dmem row (fun c hc => by
      rw [dmem_iff_mem_dkeys, h5 row hrow]
      exact List.elem_iff.mp (h3 c hc))
  simp only [hfilter, List.map_map]
  rw [Except.ok.injEq, CsvStore.mk.injEq]
  refine ⟨addMissingCols_of_contains DEFAULT_COLUMNS fns h3, ?_⟩
  refine (List.map_congr_left ?_).trans (List.map_id rows)
  intro row hrow
  exact hrows row hrow

/-- C9: for every ledger state reached by loading a well-formed table and
applying any sequence of mark_completed and mark_failed mutations,
serializing the state and loading the result again yields exactly the
same field names and rows: flush followed by load is the identity on the
observable ledger state. -/
theorem flush_load_roundtrip (t : CsvTable) (st : CsvStore) (muts : List LedgerMut)
    (hwf : wellFormedTable t = true) (hload : loadTable t = .ok st) :
    loadTable (serializeRows (applyMuts st muts)) = .ok (applyMuts st muts) :=
  loadTable_serializeRows _ (WFStore_applyMuts muts st (loadTable_wf t st hwf hload))

/-- Witness for C9: a two-row ledger with one completion and one failure
round-trips exactly. -/
theorem flush_load_roundtrip_witness :
    loadTable (serializeRows (applyMuts
      { fieldnames := ["filename", "url", "transcription_id", "status", "error"],
        rows := [[("filename", "a.mp3"), ("url", "u1"), ("transcription_id", ""),
                  ("status", ""), ("error", "")],
                 [("filename", "b.mp3"), ("url", "u2"), ("transcription_id", ""),
                  ("status", ""), ("error", "")]] }
      [.completed 0 "t9", .failed 1 "oops"])) =
    .ok (applyMuts
      { fieldnames := ["filename", "url", "transcription_id", "status", "error"],
        rows := [[("filename", "a.mp3"), ("url", "u1"), ("transcription_id", ""),
                  ("status", ""), ("error", "")],
                 [("filename", "b.mp3"), ("url", "u2"), ("transcription_id", ""),
                  ("status", ""), ("error", "")]] }
      [.completed 0 "t9", .failed 1 "oops"]) :=
  flush_load_roundtrip [["filename", "url"], ["a.mp3", "u1"], ["b.mp3", "u2"]] _
    [.completed 0 "t9", .failed 1 "oops"] (by decide) (by rfl)

end Voxmem
